import Mathlib

/-!
Verification of the `watcher` library (polling file-change watcher).

The definitions below are a shallow embedding of the Go source:
  * `watcher.go`    — the watch-loop state machine, `Config`, `defaultChange`
  * `scanfuncs.go`  — `ScanFilesInDirectory`, `matchesSuffixes`
  * `ScanError`     — the scan error type

Go maps are modelled as association lists (`List (String × MatchInfo)`);
Go channels used as close-only signals (`stop`, `kill`) are modelled by
Booleans recording whether the channel has been closed; the `Changes`
output channel is modelled by a Boolean recording whether it has been
closed plus the per-cycle action describing what, if anything, was sent.
Go's `select` statement picks uniformly at random among ready cases, so
whenever both the `kill` and the `stop` channel are ready (closed) the
choice is an explicit Boolean parameter `pickKill`.
-/

namespace Watcher

/-- MatchInfo from scanfuncs.go: information about a single file that met
the match criteria.  `ModTime` (Go `time.Time`) is modelled as a `Nat`. -/
structure MatchInfo where
  Path : String
  ModTime : Nat
  MatchedOn : String
deriving Repr, DecidableEq

/-- ScanResult from scanfuncs.go.  The Go map `FilePathsToInfo` is an
association list; the zero value `ScanResult{}` is `⟨[]⟩`. -/
structure ScanResult where
  FilePathsToInfo : List (String × MatchInfo)
deriving Repr, DecidableEq

/-- ScanError from the repository: the error value returned by the scan
functions when the root directory cannot be read. -/
structure ScanError where
  reason : String
  rootReadFailed : Bool
deriving Repr, DecidableEq

/-- ScanError.RootDirectoryReadFailed. -/
def ScanError.RootDirectoryReadFailed (o : ScanError) : Bool :=
  o.rootReadFailed

/-- A Go `error` interface value as it can appear in `defaultChange.err`.
Go type assertions depend on the dynamic type, so a `*ScanError` (what the
scan functions return) and a `ScanError` value are distinguished. -/
inductive GoError where
  /-- dynamic type `*ScanError` — produced by `&ScanError{...}` in the
  scan functions. -/
  | scanErrPtr (e : ScanError)
  /-- dynamic type `ScanError` (value). -/
  | scanErrVal (e : ScanError)
  /-- any other error value. -/
  | other (msg : String)
deriving Repr, DecidableEq

/-- Error message of a `GoError` (its `Error()` method). -/
def GoError.message : GoError → String
  | .scanErrPtr e => e.reason
  | .scanErrVal e => e.reason
  | .other msg => msg

/-- Go map lookup `m[k]` on the association-list model: the first binding
of key `k`, if any. -/
def findInfo (m : List (String × MatchInfo)) (k : String) : Option MatchInfo :=
  match m with
  | [] => none
  | kv :: rest => if kv.1 = k then some kv.2 else findInfo rest k

/-- The `updated` half of the diff in `defaultWatcher.loop`
(watcher.go lines 85–92): every entry of `current` whose path is absent
from `last`, or present with a different `ModTime`, is appended. -/
def updatedInfosOf (P : List (String × MatchInfo)) :
    List (String × MatchInfo) → List MatchInfo
  | [] => []
  | kv :: rest =>
    match findInfo P kv.1 with
    | some lastInfo =>
      if kv.2.ModTime = lastInfo.ModTime then updatedInfosOf P rest
      else kv.2 :: updatedInfosOf P rest
    | none => kv.2 :: updatedInfosOf P rest

/-- The `deleted` half of the diff in `defaultWatcher.loop`
(watcher.go lines 94–99): every entry of `last` whose path is absent from
`current` is appended. -/
def deletedInfosOf (C : List (String × MatchInfo)) :
    List (String × MatchInfo) → List MatchInfo
  | [] => []
  | kv :: rest =>
    match findInfo C kv.1 with
    | some _ => deletedInfosOf C rest
    | none => kv.2 :: deletedInfosOf C rest

/-- Go `strings.TrimSpace` on the character-list view of a string. -/
def trimSpaceChars (cs : List Char) : List Char :=
  ((cs.dropWhile Char.isWhitespace).reverse.dropWhile Char.isWhitespace).reverse

/-- Go `strings.TrimSpace`. -/
def stringTrimSpace (s : String) : String :=
  ⟨trimSpaceChars s.data⟩

/-- Config from watcher.go.  `ScanFunc` and `Changes` cannot be stored in
a first-order value, so only their nil-ness is recorded (that is all
`Config.IsValid` inspects); `RefreshDelay` (a Go `time.Duration`) is an
integer number of nanoseconds. -/
structure Config where
  RootDirPath : String
  ScanCriteria : List String
  RefreshDelay : Int
  hasChangesChan : Bool
  hasScanFunc : Bool
deriving Repr, DecidableEq

/-- Config.IsValid from watcher.go lines 171–189: the first failing check
yields its error message, otherwise `none`. -/
def Config.IsValid (o : Config) : Option String :=
  if (stringTrimSpace o.RootDirPath).length = 0 then
    some "the directory path to watch cannot not be empty"
  else if o.ScanCriteria.length = 0 then
    some "the file suffixes to match cannot not be empty"
  else if !o.hasChangesChan then
    some "the changes channel cannot be nil"
  else if !o.hasScanFunc then
    some "the scan function cannot be nil"
  else
    none

/-- defaultChange from watcher.go.  The Go map
`stateToInfo map[changeState][]MatchInfo` can only ever hold the keys
`updated` and `deleted`, and a key exists exactly when at least one
element was appended under it, so the map is represented by the two
slices; `stateToInfoLen` below recovers `len(stateToInfo)`. -/
structure defaultChange where
  err : Option GoError
  scanResult : ScanResult
  updatedInfos : List MatchInfo
  deletedInfos : List MatchInfo
deriving Repr, DecidableEq

/-- Go `len(change.stateToInfo)`: the number of keys present in the map. -/
def stateToInfoLen (c : defaultChange) : Nat :=
  (if c.updatedInfos.isEmpty then 0 else 1) +
    (if c.deletedInfos.isEmpty then 0 else 1)

/-- defaultChange.IsErr. -/
def defaultChange.IsErr (o : defaultChange) : Bool :=
  o.err.isSome

/-- defaultChange.RootReadErr (watcher.go lines 215–226): the Go type
assertion `o.err.(ScanError)` succeeds only when the dynamic type of the
stored error is exactly the value type `ScanError`, not `*ScanError`. -/
def defaultChange.RootReadErr (o : defaultChange) : Bool :=
  match o.err with
  | some (.scanErrVal e) => e.rootReadFailed
  | _ => false

/-- defaultChange.ErrDetails. -/
def defaultChange.ErrDetails (o : defaultChange) : String :=
  match o.err with
  | some e => e.message
  | none => ""

/-- defaultChange.UpdatedFilePaths: the `Path` of each updated entry, in
order. -/
def defaultChange.UpdatedFilePaths (o : defaultChange) : List String :=
  o.updatedInfos.map MatchInfo.Path

/-- defaultChange.DeletedFilePaths. -/
def defaultChange.DeletedFilePaths (o : defaultChange) : List String :=
  o.deletedInfos.map MatchInfo.Path

/-- The inner loop of the suffix-filtered accessors: whether
`c.MatchedOn` equals some element of `suffixes`. -/
def matchedOnAnyOf (c : MatchInfo) (suffixes : List String) : Bool :=
  suffixes.any (fun sfx => c.MatchedOn == sfx)

/-- Body shared by `UpdatedFilePathsWithSuffixes` and
`DeletedFilePathsWithSuffixes` (watcher.go lines 256–284): keep the paths
whose `MatchedOn` occurs in `suffixes`. -/
def pathsWithSuffixes : List MatchInfo → List String → List String
  | [], _ => []
  | c :: rest, suffixes =>
    if matchedOnAnyOf c suffixes then c.Path :: pathsWithSuffixes rest suffixes
    else pathsWithSuffixes rest suffixes

/-- Body shared by `UpdatedFilePathsWithoutSuffixes` and
`DeletedFilePathsWithoutSuffixes` (watcher.go lines 286–316): keep the
paths whose `MatchedOn` occurs in none of `suffixes`. -/
def pathsWithoutSuffixes : List MatchInfo → List String → List String
  | [], _ => []
  | c :: rest, suffixes =>
    if matchedOnAnyOf c suffixes then pathsWithoutSuffixes rest suffixes
    else c.Path :: pathsWithoutSuffixes rest suffixes

/-- defaultChange.UpdatedFilePathsWithSuffixes. -/
def defaultChange.UpdatedFilePathsWithSuffixes (o : defaultChange)
    (suffixes : List String) : List String :=
  pathsWithSuffixes o.updatedInfos suffixes

/-- defaultChange.DeletedFilePathsWithSuffixes. -/
def defaultChange.DeletedFilePathsWithSuffixes (o : defaultChange)
    (suffixes : List String) : List String :=
  pathsWithSuffixes o.deletedInfos suffixes

/-- defaultChange.UpdatedFilePathsWithoutSuffixes. -/
def defaultChange.UpdatedFilePathsWithoutSuffixes (o : defaultChange)
    (suffixes : List String) : List String :=
  pathsWithoutSuffixes o.updatedInfos suffixes

/-- defaultChange.DeletedFilePathsWithoutSuffixes. -/
def defaultChange.DeletedFilePathsWithoutSuffixes (o : defaultChange)
    (suffixes : List String) : List String :=
  pathsWithoutSuffixes o.deletedInfos suffixes

/-- State of a `defaultWatcher`.  The two signal channels are recorded by
whether they have been closed; `changesClosed` records whether the
`Changes` output channel has been closed; `taskCount` counts the polling
tasks currently running (spawned and not yet returned). -/
structure WatcherState where
  stopClosed : Bool
  killClosed : Bool
  last : ScanResult
  changesClosed : Bool
  taskCount : Nat
deriving Repr, DecidableEq

/-- State produced by `NewWatcher` (watcher.go lines 319–335): both
channels freshly made, then `stop` immediately closed; `last` is the zero
`ScanResult`; no polling task. -/
def newWatcherState : WatcherState :=
  { stopClosed := true, killClosed := false, last := ⟨[]⟩,
    changesClosed := false, taskCount := 0 }

/-- Result of `defaultWatcher.Start`: the new state and whether a polling
task was spawned (`go o.loop(o.config)` executed). -/
structure StartOutcome where
  state : WatcherState
  spawned : Bool
deriving Repr, DecidableEq

/-- defaultWatcher.Start (watcher.go lines 45–63).  The `select` has a
receive on `kill` (ready iff `kill` is closed, in which case the method
returns), a receive on `stop` (ready iff `stop` is closed, in which case
`stop` is replaced by a fresh open channel and a polling task is
spawned), and a `default` case returning.  When both receives are ready
Go picks one uniformly at random; the choice is the `pickKill`
parameter. -/
def startOp (s : WatcherState) (pickKill : Bool) : StartOutcome :=
  if s.killClosed && s.stopClosed then
    if pickKill then ⟨s, false⟩
    else ⟨{ s with stopClosed := false, taskCount := s.taskCount + 1 }, true⟩
  else if s.killClosed then ⟨s, false⟩
  else if s.stopClosed then
    ⟨{ s with stopClosed := false, taskCount := s.taskCount + 1 }, true⟩
  else ⟨s, false⟩

/-- defaultWatcher.Stop (watcher.go lines 132–145): if `stop` is already
closed, return; otherwise close it. -/
def stopOp (s : WatcherState) : WatcherState :=
  if s.stopClosed then s else { s with stopClosed := true }

/-- defaultWatcher.Destroy (watcher.go lines 117–130): if `kill` is
already closed, return; otherwise close it.  Nothing else is touched —
in particular the `Changes` channel is not closed here. -/
def destroyOp (s : WatcherState) : WatcherState :=
  if s.killClosed then s else { s with killClosed := true }

/-- What one iteration of `defaultWatcher.loop` did to the outside
world. -/
inductive CycleAction where
  /-- a `Change` was sent on `config.Changes`. -/
  | publish (c : defaultChange)
  /-- nothing was sent; the loop continues. -/
  | noEmit
  /-- the `kill` case fired: `config.Changes` closed, task returned. -/
  | closedAndTerminated
  /-- the `stop` case fired: task returned without closing the channel. -/
  | terminated
deriving Repr, DecidableEq

/-- Whether a cycle published a change report. -/
def isPublish : CycleAction → Bool
  | .publish _ => true
  | _ => false

/-- Whether a cycle ended the polling task. -/
def isTerminal : CycleAction → Bool
  | .closedAndTerminated => true
  | .terminated => true
  | _ => false

/-- One iteration of the `for` loop in `defaultWatcher.loop`
(watcher.go lines 71–114), given the outcome `scanned` of
`config.ScanFunc(config)` for this cycle.  On a scan error the change
(carrying the error and the zero `ScanResult` that accompanies it) is
sent with no look at the signal channels and the loop continues.  On
success the diff is computed, `o.last` is replaced by `current`, and the
final `select` runs: the `kill` receive is ready iff `kill` is closed and
the `stop` receive is ready iff `stop` is closed, with `pickKill`
deciding when both are ready; otherwise the change is sent only if
`len(change.stateToInfo) > 0`. -/
def loopCycle (s : WatcherState) (scanned : Except GoError ScanResult)
    (pickKill : Bool) : WatcherState × CycleAction :=
  match scanned with
  | .error e =>
    (s, .publish { err := some e, scanResult := ⟨[]⟩,
                   updatedInfos := [], deletedInfos := [] })
  | .ok current =>
    let change : defaultChange :=
      { err := none, scanResult := current,
        updatedInfos :=
          updatedInfosOf s.last.FilePathsToInfo current.FilePathsToInfo,
        deletedInfos :=
          deletedInfosOf current.FilePathsToInfo s.last.FilePathsToInfo }
    let s1 := { s with last := current }
    if s1.killClosed && (!s1.stopClosed || pickKill) then
      ({ s1 with changesClosed := true, taskCount := s1.taskCount - 1 },
        .closedAndTerminated)
    else if s1.stopClosed then
      ({ s1 with taskCount := s1.taskCount - 1 }, .terminated)
    else if stateToInfoLen change > 0 then
      (s1, .publish change)
    else
      (s1, .noEmit)

/-- A directory entry as returned by `ioutil.ReadDir` (`os.FileInfo`),
restricted to the fields the scan functions use. -/
structure FileEntry where
  name : String
  isDir : Bool
  modTime : Nat
deriving Repr, DecidableEq

/-- The outcome of `ioutil.ReadDir` on the watched root directory: either
the listing fails with an error message or it yields the entries. -/
inductive DirListing where
  | readErr (msg : String)
  | entries (es : List FileEntry)
deriving Repr, DecidableEq

/-- Go `strings.HasSuffix s suffix` on the character-list view. -/
def hasSuffix (s suffix : String) : Bool :=
  suffix.data.isSuffixOf s.data

/-- matchesSuffixes from scanfuncs.go lines 331–339: the first suffix in
the list that matches, if any (Go returns `("", false)` on no match,
modelled as `none`). -/
def matchesSuffixes (s : String) : List String → Option String
  | [] => none
  | suffix :: rest =>
    if hasSuffix s suffix then some suffix else matchesSuffixes s rest

/-- Go `path.Join(a, b)` for the clean, nonempty components the scan
functions produce. -/
def pathJoin (a b : String) : String :=
  a ++ "/" ++ b

/-- The entry loop of `ScanFilesInDirectory` (scanfuncs.go lines
240–257): skip directories, skip names matching no configured suffix,
record the rest keyed by the joined path. -/
def scanEntries (config : Config) : List FileEntry → List (String × MatchInfo)
  | [] => []
  | sub :: rest =>
    if sub.isDir then scanEntries config rest
    else
      match matchesSuffixes sub.name config.ScanCriteria with
      | none => scanEntries config rest
      | some suffix =>
        (pathJoin config.RootDirPath sub.name,
          { Path := pathJoin config.RootDirPath sub.name,
            MatchedOn := suffix, ModTime := sub.modTime })
          :: scanEntries config rest

/-- ScanFilesInDirectory (scanfuncs.go lines 227–260), with the result of
`ioutil.ReadDir(config.RootDirPath)` as an explicit argument.  On a read
error it returns the zero `ScanResult` and `&ScanError{reason: ...,
rootReadFailed: true}` — a pointer, hence `GoError.scanErrPtr`. -/
def ScanFilesInDirectory (listing : DirListing) (config : Config) :
    Except GoError ScanResult :=
  match listing with
  | .readErr msg => .error (.scanErrPtr { reason := msg, rootReadFailed := true })
  | .entries subInfos => .ok ⟨scanEntries config subInfos⟩

theorem mem_updatedInfosOf (P C : List (String × MatchInfo)) (x : MatchInfo) :
    x ∈ updatedInfosOf P C ↔
      ∃ kv, kv ∈ C ∧ kv.2 = x ∧
        (findInfo P kv.1 = none ∨
          ∃ li, findInfo P kv.1 = some li ∧ kv.2.ModTime ≠ li.ModTime) := by
  induction C with
  | nil => simp [updatedInfosOf]
  | cons kv rest ih =>
    cases h : findInfo P kv.1 with
    | none =>
      simp only [updatedInfosOf, h, List.mem_cons]
      constructor
      · rintro (rfl | hx)
        · exact ⟨kv, Or.inl rfl, rfl, Or.inl h⟩
        · obtain ⟨kv', hmem, hval, hcond⟩ := ih.mp hx
          exact ⟨kv', Or.inr hmem, hval, hcond⟩
      · rintro ⟨kv', hmem, hval, hcond⟩
        rcases hmem with rfl | hmem
        · exact Or.inl hval.symm
        · exact Or.inr (ih.mpr ⟨kv', hmem, hval, hcond⟩)
    | some li =>
      by_cases hm : kv.2.ModTime = li.ModTime
      · simp only [updatedInfosOf, h, if_pos hm]
        rw [ih]
        constructor
        · rintro ⟨kv', hmem, hval, hcond⟩
          exact ⟨kv', List.mem_cons_of_mem _ hmem, hval, hcond⟩
        · rintro ⟨kv', hmem, hval, hcond⟩
          rcases List.mem_cons.mp hmem with rfl | hmem
          · rcases hcond with hnone | ⟨li', hsome, hne⟩
            · rw [h] at hnone; cases hnone
            · rw [h] at hsome
              cases hsome
              exact absurd hm hne
          · exact ⟨kv', hmem, hval, hcond⟩
      · simp only [updatedInfosOf, h, if_neg hm, List.mem_cons]
        constructor
        · rintro (rfl | hx)
          · exact ⟨kv, Or.inl rfl, rfl, Or.inr ⟨li, h, hm⟩⟩
          · obtain ⟨kv', hmem, hval, hcond⟩ := ih.mp hx
            exact ⟨kv', Or.inr hmem, hval, hcond⟩
        · rintro ⟨kv', hmem, hval, hcond⟩
          rcases hmem with rfl | hmem
          · exact Or.inl hval.symm
          · exact Or.inr (ih.mpr ⟨kv', hmem, hval, hcond⟩)

theorem mem_deletedInfosOf (C P : List (String × MatchInfo)) (x : MatchInfo) :
    x ∈ deletedInfosOf C P ↔
      ∃ kv, kv ∈ P ∧ kv.2 = x ∧ findInfo C kv.1 = none := by
  induction P with
  | nil => simp [deletedInfosOf]
  | cons kv rest ih =>
    cases h : findInfo C kv.1 with
    | none =>
      simp only [deletedInfosOf, h, List.mem_cons]
      constructor
      · rintro (rfl | hx)
        · exact ⟨kv, Or.inl rfl, rfl, h⟩
        · obtain ⟨kv', hmem, hval, hcond⟩ := ih.mp hx
          exact ⟨kv', Or.inr hmem, hval, hcond⟩
      · rintro ⟨kv', hmem, hval, hcond⟩
        rcases hmem with rfl | hmem
        · exact Or.inl hval.symm
        · exact Or.inr (ih.mpr ⟨kv', hmem, hval, hcond⟩)
    | some li =>
      simp only [deletedInfosOf, h]
      rw [ih]
      constructor
      · rintro ⟨kv', hmem, hval, hcond⟩
        exact ⟨kv', List.mem_cons_of_mem _ hmem, hval, hcond⟩
      · rintro ⟨kv', hmem, hval, hcond⟩
        rcases List.mem_cons.mp hmem with rfl | hmem
        · rw [h] at hcond; cases hcond
        · exact ⟨kv', hmem, hval, hcond⟩

theorem findInfo_isSome_iff (m : List (String × MatchInfo)) (k : String) :
    (findInfo m k).isSome ↔ ∃ kv, kv ∈ m ∧ kv.1 = k := by
  induction m with
  | nil => simp [findInfo]
  | cons kv rest ih =>
    by_cases h : kv.1 = k
    · simp [findInfo, h]
    · simp only [findInfo, if_neg h, List.mem_cons, ih]
      constructor
      · rintro ⟨kv', hmem, hk⟩
        exact ⟨kv', Or.inr hmem, hk⟩
      · rintro ⟨kv', hmem, hk⟩
        rcases hmem with rfl | hmem
        · exact absurd hk h
        · exact ⟨kv', hmem, hk⟩

theorem findInfo_eq_none_iff (m : List (String × MatchInfo)) (k : String) :
    findInfo m k = none ↔ ∀ kv, kv ∈ m → kv.1 ≠ k := by
  rw [← Option.not_isSome_iff_eq_none, findInfo_isSome_iff]
  push_neg
  rfl

theorem findInfo_mem (m : List (String × MatchInfo)) (k : String)
    (i : MatchInfo) (h : findInfo m k = some i) :
    ∃ kv, kv ∈ m ∧ kv.1 = k ∧ kv.2 = i := by
  induction m with
  | nil => cases h
  | cons kv rest ih =>
    by_cases hk : kv.1 = k
    · rw [findInfo, if_pos hk] at h
      cases h
      exact ⟨kv, List.mem_cons_self _ _, hk, rfl⟩
    · rw [findInfo, if_neg hk] at h
      obtain ⟨kv', hmem, hk', hv⟩ := ih h
      exact ⟨kv', List.mem_cons_of_mem _ hmem, hk', hv⟩

theorem findInfo_of_mem_nodup (m : List (String × MatchInfo))
    (hnd : (m.map Prod.fst).Nodup) (kv : String × MatchInfo) (hmem : kv ∈ m) :
    findInfo m kv.1 = some kv.2 := by
  induction m with
  | nil => cases hmem
  | cons hd rest ih =>
    rw [List.map_cons, List.nodup_cons] at hnd
    rcases List.mem_cons.mp hmem with rfl | hmem
    · rw [findInfo, if_pos rfl]
    · have hne : hd.1 ≠ kv.1 := by
        intro he
        exact hnd.1 (he ▸ List.mem_map_of_mem Prod.fst hmem)
      rw [findInfo, if_neg hne]
      exact ih hnd.2 hmem


theorem updatedInfosOf_all_found (P C : List (String × MatchInfo))
    (h : ∀ kv, kv ∈ C → findInfo P kv.1 = some kv.2) :
    updatedInfosOf P C = [] := by
  induction C with
  | nil => rfl
  | cons kv rest ih =>
    rw [updatedInfosOf, h kv (List.mem_cons_self _ _)]
    show (if kv.2.ModTime = kv.2.ModTime then updatedInfosOf P rest
          else kv.2 :: updatedInfosOf P rest) = []
    rw [if_pos rfl]
    exact ih fun kv' hm => h kv' (List.mem_cons_of_mem _ hm)

theorem deletedInfosOf_all_found (C P : List (String × MatchInfo))
    (h : ∀ kv, kv ∈ P → (findInfo C kv.1).isSome) :
    deletedInfosOf C P = [] := by
  induction P with
  | nil => rfl
  | cons kv rest ih =>
    have hs := h kv (List.mem_cons_self _ _)
    cases hf : findInfo C kv.1 with
    | none => rw [hf] at hs; cases hs
    | some li =>
      rw [deletedInfosOf, hf]
      exact ih fun kv' hm => h kv' (List.mem_cons_of_mem _ hm)

theorem updatedInfosOf_self (m : List (String × MatchInfo))
    (h : (m.map Prod.fst).Nodup) : updatedInfosOf m m = [] :=
  updatedInfosOf_all_found m m fun kv hm => findInfo_of_mem_nodup m h kv hm

theorem deletedInfosOf_self (m : List (String × MatchInfo)) :
    deletedInfosOf m m = [] :=
  deletedInfosOf_all_found m m fun kv hm =>
    (findInfo_isSome_iff m kv.1).mpr ⟨kv, hm, rfl⟩

/-- Claim C1: in one loop cycle with previous snapshot `P` and current
snapshot `C`, a path is classified updated exactly when it is a key of
`C` and is either absent from `P` or carries a different modification
timestamp there (equal timestamps are not reported); it is classified
deleted exactly when it is a key of `P` and absent from `C`; a path
present in both with equal timestamps appears in neither list.  The
hypotheses record the Go-map invariants of snapshots: keys of `C` are
distinct, and every entry's `Path` equals its key. -/
theorem C1_diff_classification (P C : List (String × MatchInfo)) (p : String)
    (hC : (C.map Prod.fst).Nodup)
    (hCk : ∀ kv, kv ∈ C → kv.2.Path = kv.1)
    (hPk : ∀ kv, kv ∈ P → kv.2.Path = kv.1) :
    (p ∈ (updatedInfosOf P C).map MatchInfo.Path ↔
      ∃ ci, findInfo C p = some ci ∧
        (findInfo P p = none ∨
          ∃ li, findInfo P p = some li ∧ ci.ModTime ≠ li.ModTime)) ∧
    (p ∈ (deletedInfosOf C P).map MatchInfo.Path ↔
      (findInfo P p).isSome ∧ findInfo C p = none) ∧
    (∀ ci li, findInfo C p = some ci → findInfo P p = some li →
      ci.ModTime = li.ModTime →
      p ∉ (updatedInfosOf P C).map MatchInfo.Path ∧
      p ∉ (deletedInfosOf C P).map MatchInfo.Path) := by
  have hupd : p ∈ (updatedInfosOf P C).map MatchInfo.Path ↔
      ∃ ci, findInfo C p = some ci ∧
        (findInfo P p = none ∨
          ∃ li, findInfo P p = some li ∧ ci.ModTime ≠ li.ModTime) := by
    constructor
    · intro hp
      obtain ⟨x, hx, hxp⟩ := List.mem_map.mp hp
      obtain ⟨kv, hmem, hval, hcond⟩ := (mem_updatedInfosOf P C x).mp hx
      have hkey : kv.1 = p := by
        rw [← hxp, ← hval, hCk kv hmem]
      subst hkey
      refine ⟨x, ?_, ?_⟩
      · rw [findInfo_of_mem_nodup C hC kv hmem, hval]
      · rw [← hval]; exact hcond
    · rintro ⟨ci, hfind, hcond⟩
      obtain ⟨kv, hmem, hkey, hval⟩ := findInfo_mem C p ci hfind
      refine List.mem_map.mpr ⟨ci, ?_, ?_⟩
      · refine (mem_updatedInfosOf P C ci).mpr ⟨kv, hmem, hval, ?_⟩
        rw [hkey, hval]
        exact hcond
      · rw [← hval, hCk kv hmem, hkey]
  have hdel : p ∈ (deletedInfosOf C P).map MatchInfo.Path ↔
      (findInfo P p).isSome ∧ findInfo C p = none := by
    constructor
    · intro hp
      obtain ⟨x, hx, hxp⟩ := List.mem_map.mp hp
      obtain ⟨kv, hmem, hval, hcond⟩ := (mem_deletedInfosOf C P x).mp hx
      have hkey : kv.1 = p := by
        rw [← hxp, ← hval, hPk kv hmem]
      subst hkey
      exact ⟨(findInfo_isSome_iff P kv.1).mpr ⟨kv, hmem, rfl⟩, hcond⟩
    · rintro ⟨hsome, hnone⟩
      obtain ⟨kv, hmem, hkey⟩ := (findInfo_isSome_iff P p).mp hsome
      refine List.mem_map.mpr ⟨kv.2, ?_, ?_⟩
      · exact (mem_deletedInfosOf C P kv.2).mpr ⟨kv, hmem, rfl, hkey ▸ hnone⟩
      · rw [hPk kv hmem, hkey]
  refine ⟨hupd, hdel, ?_⟩
  intro ci li hci hli heq
  constructor
  · intro hp
    obtain ⟨ci', hci', hcond⟩ := hupd.mp hp
    rw [hci] at hci'
    cases hci'
    rcases hcond with hnone | ⟨li', hli', hne⟩
    · rw [hli] at hnone; cases hnone
    · rw [hli] at hli'
      cases hli'
      exact hne heq
  · intro hp
    have := (hdel.mp hp).2
    rw [hci] at this
    cases this

/-- Witness for C1 at the spec's own example: previous snapshot
`{f1.txt ↦ t1}`, current snapshot `{f1.txt ↦ t2 ≠ t1, f2.txt ↦ t3}`;
`f1.txt` is classified updated. -/
theorem C1_diff_classification_witness :
    "f1.txt" ∈ (updatedInfosOf
      [("f1.txt", { Path := "f1.txt", ModTime := 1, MatchedOn := ".txt" })]
      [("f1.txt", { Path := "f1.txt", ModTime := 2, MatchedOn := ".txt" }),
       ("f2.txt", { Path := "f2.txt", ModTime := 3, MatchedOn := ".txt" })]).map
        MatchInfo.Path :=
  (C1_diff_classification
      [("f1.txt", { Path := "f1.txt", ModTime := 1, MatchedOn := ".txt" })]
      [("f1.txt", { Path := "f1.txt", ModTime := 2, MatchedOn := ".txt" }),
       ("f2.txt", { Path := "f2.txt", ModTime := 3, MatchedOn := ".txt" })]
      "f1.txt" (by decide) (by decide) (by decide)).1.mpr
    ⟨{ Path := "f1.txt", ModTime := 2, MatchedOn := ".txt" }, by decide,
      Or.inr ⟨{ Path := "f1.txt", ModTime := 1, MatchedOn := ".txt" },
        by decide, by decide⟩⟩

theorem stateToInfoLen_pos_iff (c : defaultChange) :
    0 < stateToInfoLen c ↔ (c.updatedInfos ≠ [] ∨ c.deletedInfos ≠ []) := by
  rcases c with ⟨e, r, u, d⟩
  cases u <;> cases d <;> simp [stateToInfoLen]

theorem loopCycle_ok_publish_inv (s : WatcherState) (current : ScanResult)
    (pickKill : Bool) (c : defaultChange)
    (h : (loopCycle s (.ok current) pickKill).2 = CycleAction.publish c) :
    c = { err := none, scanResult := current,
          updatedInfos :=
            updatedInfosOf s.last.FilePathsToInfo current.FilePathsToInfo,
          deletedInfos :=
            deletedInfosOf current.FilePathsToInfo s.last.FilePathsToInfo } := by
  simp only [loopCycle] at h
  split at h
  · exact CycleAction.noConfusion h
  · split at h
    · exact CycleAction.noConfusion h
    · split at h
      · exact (CycleAction.publish.inj h).symm
      · exact CycleAction.noConfusion h

theorem loopCycle_ok_noPublish (s : WatcherState) (current : ScanResult)
    (pickKill : Bool)
    (h1 : updatedInfosOf s.last.FilePathsToInfo current.FilePathsToInfo = [])
    (h2 : deletedInfosOf current.FilePathsToInfo s.last.FilePathsToInfo = []) :
    isPublish (loopCycle s (.ok current) pickKill).2 = false := by
  simp only [loopCycle, h1, h2]
  split_ifs with hA hB hC
  · rfl
  · rfl
  · exact absurd hC (Nat.lt_irrefl 0)
  · rfl

/-- Claim C7: a cycle whose scan returns an error publishes a change
report carrying only the error (empty updated and deleted lists), leaves
the watcher state — in particular the stored previous snapshot — exactly
as it was, and does not terminate the polling task. -/
theorem C7_error_cycle_frame (s : WatcherState) (e : GoError)
    (pickKill : Bool) :
    loopCycle s (.error e) pickKill =
      (s, CycleAction.publish { err := some e, scanResult := ⟨[]⟩,
                                updatedInfos := [], deletedInfos := [] }) ∧
    defaultChange.UpdatedFilePaths { err := some e, scanResult := ⟨[]⟩,
                                     updatedInfos := [], deletedInfos := [] } = [] ∧
    defaultChange.DeletedFilePaths { err := some e, scanResult := ⟨[]⟩,
                                     updatedInfos := [], deletedInfos := [] } = [] ∧
    isTerminal (loopCycle s (.error e) pickKill).2 = false :=
  ⟨rfl, rfl, rfl, rfl⟩

/-- Claim C6: a successful-scan cycle whose diff yields no updated and no
deleted paths publishes nothing; a report is published only when at least
one update or deletion exists; and two consecutive scans yielding the
same snapshot (its keys distinct, as Go map keys are) cause no
emission. -/
theorem C6_no_empty_emission (s : WatcherState) (current : ScanResult)
    (pickKill : Bool) :
    (updatedInfosOf s.last.FilePathsToInfo current.FilePathsToInfo = [] →
      deletedInfosOf current.FilePathsToInfo s.last.FilePathsToInfo = [] →
      isPublish (loopCycle s (.ok current) pickKill).2 = false) ∧
    (∀ c, (loopCycle s (.ok current) pickKill).2 = CycleAction.publish c →
      c.updatedInfos ≠ [] ∨ c.deletedInfos ≠ []) ∧
    ((s.last.FilePathsToInfo.map Prod.fst).Nodup →
      isPublish (loopCycle s (.ok s.last) pickKill).2 = false) := by
  refine ⟨loopCycle_ok_noPublish s current pickKill, ?_, ?_⟩
  · intro c hc
    simp only [loopCycle] at hc
    split at hc
    · exact CycleAction.noConfusion hc
    · split at hc
      · exact CycleAction.noConfusion hc
      · split at hc
        · rename_i hlen
          obtain rfl := CycleAction.publish.inj hc
          exact (stateToInfoLen_pos_iff _).mp hlen
        · exact CycleAction.noConfusion hc
  · intro hnd
    exact loopCycle_ok_noPublish s s.last pickKill
      (updatedInfosOf_self _ hnd) (deletedInfosOf_self _)

/-- Witness for C6: scanning an unchanged one-file snapshot twice in a
row publishes nothing. -/
theorem C6_no_empty_emission_witness :
    isPublish (loopCycle
      { stopClosed := false, killClosed := false,
        last := ⟨[("a", { Path := "a", ModTime := 1, MatchedOn := ".txt" })]⟩,
        changesClosed := false, taskCount := 1 }
      (.ok ⟨[("a", { Path := "a", ModTime := 1, MatchedOn := ".txt" })]⟩)
      false).2 = false :=
  (C6_no_empty_emission
    { stopClosed := false, killClosed := false,
      last := ⟨[("a", { Path := "a", ModTime := 1, MatchedOn := ".txt" })]⟩,
      changesClosed := false, taskCount := 1 }
    ⟨[("a", { Path := "a", ModTime := 1, MatchedOn := ".txt" })]⟩
    false).2.2 (by decide)

/-- Claim C5 as stated is false on the code: it is not the case that
every cycle with the kill signal pending (and the select able to pick
it) closes the channel and terminates instead of publishing — a cycle
whose scan returns an error publishes the error report without ever
looking at the stop/kill signals (watcher.go lines 79–83). -/
theorem C5_claim_counterexample :
    ¬ (∀ (s : WatcherState) (scanned : Except GoError ScanResult)
        (pickKill : Bool), s.killClosed = true →
        (s.stopClosed = false ∨ pickKill = true) →
        (loopCycle s scanned pickKill).2 = CycleAction.closedAndTerminated) := by
  intro h
  have hc := h { stopClosed := false, killClosed := true, last := ⟨[]⟩,
                 changesClosed := false, taskCount := 1 }
      (.error (.other "scan failed")) true rfl (Or.inl rfl)
  exact CycleAction.noConfusion hc

/-- Claim C5 amended: on a successful-scan cycle the loop does check the
signals before publishing — a pending Destroy closes the channel and
terminates the task, a pending Stop terminates it without closing — but
on a scan-error cycle the report is published unconditionally, with no
signal check. -/
theorem C5_checkpoint_before_publish (s : WatcherState) (current : ScanResult)
    (e : GoError) (pickKill : Bool) :
    (s.killClosed = true → (s.stopClosed = false ∨ pickKill = true) →
      (loopCycle s (.ok current) pickKill).2 = CycleAction.closedAndTerminated ∧
      (loopCycle s (.ok current) pickKill).1.changesClosed = true) ∧
    (s.killClosed = false → s.stopClosed = true →
      (loopCycle s (.ok current) pickKill).2 = CycleAction.terminated ∧
      (loopCycle s (.ok current) pickKill).1.changesClosed = s.changesClosed) ∧
    ((loopCycle s (.error e) pickKill).2 =
      CycleAction.publish { err := some e, scanResult := ⟨[]⟩,
                            updatedInfos := [], deletedInfos := [] } ∧
      (loopCycle s (.error e) pickKill).1 = s) := by
  refine ⟨?_, ?_, rfl, rfl⟩
  · intro hk hs
    rcases hs with h | h
    · constructor <;> simp [loopCycle, hk, h]
    · constructor <;> simp [loopCycle, hk, h]
  · intro hk hs
    constructor <;> simp [loopCycle, hk, hs]

/-- Witness for the amended C5: with Destroy pending, a successful-scan
cycle closes the channel and terminates. -/
theorem C5_checkpoint_witness :
    (loopCycle { stopClosed := false, killClosed := true, last := ⟨[]⟩,
                 changesClosed := false, taskCount := 1 }
      (.ok ⟨[]⟩) false).2 = CycleAction.closedAndTerminated :=
  ((C5_checkpoint_before_publish
      { stopClosed := false, killClosed := true, last := ⟨[]⟩,
        changesClosed := false, taskCount := 1 }
      ⟨[]⟩ (.other "e") false).1 rfl (Or.inl rfl)).1

/-- Claim C8: Stop does not modify the stored snapshot (nor close the
channel), Start preserves it, and the first cycle after a Stop/Start
resume diffs the new scan against the snapshot as stored when Stop was
issued; rescanning that same snapshot (keys distinct) emits nothing, so
nothing is lost and nothing is re-reported. -/
theorem C8_stop_preserves_snapshot (s : WatcherState) (pickKill pick2 : Bool)
    (current : ScanResult) :
    (stopOp s).last = s.last ∧
    (stopOp s).changesClosed = s.changesClosed ∧
    (startOp (stopOp s) pickKill).state.last = s.last ∧
    (∀ c, (loopCycle (startOp (stopOp s) pickKill).state (.ok current) pick2).2
        = CycleAction.publish c →
      c.updatedInfos =
        updatedInfosOf s.last.FilePathsToInfo current.FilePathsToInfo ∧
      c.deletedInfos =
        deletedInfosOf current.FilePathsToInfo s.last.FilePathsToInfo) ∧
    ((s.last.FilePathsToInfo.map Prod.fst).Nodup →
      isPublish (loopCycle (startOp (stopOp s) pickKill).state
        (.ok s.last) pick2).2 = false) := by
  have hstop : (stopOp s).last = s.last := by
    unfold stopOp; split <;> rfl
  have hstopc : (stopOp s).changesClosed = s.changesClosed := by
    unfold stopOp; split <;> rfl
  have hstart : (startOp (stopOp s) pickKill).state.last = s.last := by
    unfold startOp
    split_ifs <;> simp [hstop]
  refine ⟨hstop, hstopc, hstart, ?_, ?_⟩
  · intro c hc
    have hinv := loopCycle_ok_publish_inv _ _ _ _ hc
    rw [hstart] at hinv
    rw [hinv]
    exact ⟨rfl, rfl⟩
  · intro hnd
    refine loopCycle_ok_noPublish _ _ _ ?_ ?_
    · rw [hstart]; exact updatedInfosOf_self _ hnd
    · rw [hstart]; exact deletedInfosOf_self _

/-- Witness for C8: after Stop then Start, a scan with a changed
timestamp is diffed against the snapshot stored before the Stop. -/
theorem C8_stop_preserves_snapshot_witness :
    ({ err := none,
       scanResult := ⟨[("a", { Path := "a", ModTime := 2, MatchedOn := ".txt" })]⟩,
       updatedInfos := [{ Path := "a", ModTime := 2, MatchedOn := ".txt" }],
       deletedInfos := [] } : defaultChange).updatedInfos =
      updatedInfosOf [("a", { Path := "a", ModTime := 1, MatchedOn := ".txt" })]
        [("a", { Path := "a", ModTime := 2, MatchedOn := ".txt" })] :=
  ((C8_stop_preserves_snapshot
      { stopClosed := false, killClosed := false,
        last := ⟨[("a", { Path := "a", ModTime := 1, MatchedOn := ".txt" })]⟩,
        changesClosed := false, taskCount := 1 }
      false false
      ⟨[("a", { Path := "a", ModTime := 2, MatchedOn := ".txt" })]⟩).2.2.2.1
    { err := none,
      scanResult := ⟨[("a", { Path := "a", ModTime := 2, MatchedOn := ".txt" })]⟩,
      updatedInfos := [{ Path := "a", ModTime := 2, MatchedOn := ".txt" }],
      deletedInfos := [] }
    (by decide)).1

/-- Claim C2 fails on the code: `NewWatcher` leaves the `stop` channel
closed, so after a `Destroy` on a never-started watcher both `stop` and
`kill` are closed; `Start`'s select then has two ready cases and Go picks
one at random — when it draws the `stop` case, `Start` on a Destroyed
watcher spawns a polling task instead of being a no-op. -/
theorem C2_start_after_destroy_spawns :
    (destroyOp newWatcherState).killClosed = true ∧
    (destroyOp newWatcherState).stopClosed = true ∧
    (startOp (destroyOp newWatcherState) false).spawned = true ∧
    (startOp (destroyOp newWatcherState) false).state.taskCount = 1 :=
  ⟨rfl, rfl, rfl, rfl⟩

/-- Claim C3 fails on the code: `Destroy` only closes the `kill` channel
and never touches the `Changes` channel, so destroying a watcher with no
active polling task leaves the channel open forever (the interface doc
and the spec say it closes, immediately when no task is active); repeated
Destroy calls are no-ops. -/
theorem C3_destroy_without_task_channel_stays_open :
    (∀ s, (destroyOp s).changesClosed = s.changesClosed) ∧
    (destroyOp newWatcherState).changesClosed = false ∧
    (destroyOp newWatcherState).taskCount = 0 ∧
    destroyOp (destroyOp newWatcherState) = destroyOp newWatcherState := by
  refine ⟨?_, rfl, rfl, rfl⟩
  intro s
  unfold destroyOp
  split <;> rfl

/-- Claim C4 fails on the code: the scan functions return
`&ScanError{rootReadFailed: true}` (a `*ScanError`), but
`defaultChange.RootReadErr` type-asserts `o.err.(ScanError)` — a value
type — which never matches the pointer, so a cycle on an unreadable root
publishes a report with `IsErr() == true` but `RootReadErr() == false`,
even though the underlying `ScanError.RootDirectoryReadFailed()` is
true. -/
theorem C4_rootReadErr_false_on_unreadable_root :
    (loopCycle (startOp newWatcherState false).state
        (ScanFilesInDirectory (.readErr "no such file or directory")
          { RootDirPath := "/does/not/exist", ScanCriteria := [".txt"],
            RefreshDelay := 1, hasChangesChan := true, hasScanFunc := true })
        false).2
      = CycleAction.publish
          { err := some (.scanErrPtr { reason := "no such file or directory",
                                       rootReadFailed := true }),
            scanResult := ⟨[]⟩, updatedInfos := [], deletedInfos := [] } ∧
    defaultChange.IsErr
      { err := some (.scanErrPtr { reason := "no such file or directory",
                                   rootReadFailed := true }),
        scanResult := ⟨[]⟩, updatedInfos := [], deletedInfos := [] } = true ∧
    defaultChange.RootReadErr
      { err := some (.scanErrPtr { reason := "no such file or directory",
                                   rootReadFailed := true }),
        scanResult := ⟨[]⟩, updatedInfos := [], deletedInfos := [] } = false ∧
    ScanError.RootDirectoryReadFailed
      { reason := "no such file or directory", rootReadFailed := true } = true :=
  ⟨rfl, rfl, rfl, rfl⟩

theorem matchedOnAnyOf_eq_true (c : MatchInfo) (S : List String) :
    matchedOnAnyOf c S = true ↔ c.MatchedOn ∈ S := by
  constructor
  · intro h
    obtain ⟨x, hx, he⟩ := List.any_eq_true.mp h
    exact (eq_of_beq he) ▸ hx
  · intro h
    exact List.any_eq_true.mpr ⟨_, h, beq_self_eq_true _⟩

theorem mem_pathsWithSuffixes (infos : List MatchInfo) (S : List String)
    (p : String) :
    p ∈ pathsWithSuffixes infos S ↔
      ∃ i, i ∈ infos ∧ i.Path = p ∧ i.MatchedOn ∈ S := by
  induction infos with
  | nil => simp [pathsWithSuffixes]
  | cons c rest ih =>
    by_cases h : matchedOnAnyOf c S = true
    · rw [pathsWithSuffixes, if_pos h]
      simp only [List.mem_cons, ih]
      constructor
      · rintro (rfl | ⟨i, hi, hP, hm⟩)
        · exact ⟨c, Or.inl rfl, rfl, (matchedOnAnyOf_eq_true c S).mp h⟩
        · exact ⟨i, Or.inr hi, hP, hm⟩
      · rintro ⟨i, hi, hP, hm⟩
        rcases hi with rfl | hi
        · exact Or.inl hP.symm
        · exact Or.inr ⟨i, hi, hP, hm⟩
    · rw [pathsWithSuffixes, if_neg h]
      rw [ih]
      constructor
      · rintro ⟨i, hi, hP, hm⟩
        exact ⟨i, List.mem_cons_of_mem _ hi, hP, hm⟩
      · rintro ⟨i, hi, hP, hm⟩
        rcases List.mem_cons.mp hi with rfl | hi
        · exact absurd ((matchedOnAnyOf_eq_true i S).mpr hm) h
        · exact ⟨i, hi, hP, hm⟩

theorem mem_pathsWithoutSuffixes (infos : List MatchInfo) (S : List String)
    (p : String) :
    p ∈ pathsWithoutSuffixes infos S ↔
      ∃ i, i ∈ infos ∧ i.Path = p ∧ i.MatchedOn ∉ S := by
  induction infos with
  | nil => simp [pathsWithoutSuffixes]
  | cons c rest ih =>
    by_cases h : matchedOnAnyOf c S = true
    · rw [pathsWithoutSuffixes, if_pos h]
      rw [ih]
      constructor
      · rintro ⟨i, hi, hP, hm⟩
        exact ⟨i, List.mem_cons_of_mem _ hi, hP, hm⟩
      · rintro ⟨i, hi, hP, hm⟩
        rcases List.mem_cons.mp hi with rfl | hi
        · exact absurd ((matchedOnAnyOf_eq_true i S).mp h) hm
        · exact ⟨i, hi, hP, hm⟩
    · rw [pathsWithoutSuffixes, if_neg h]
      simp only [List.mem_cons, ih]
      constructor
      · rintro (rfl | ⟨i, hi, hP, hm⟩)
        · refine ⟨c, Or.inl rfl, rfl, ?_⟩
          intro hmem
          exact h ((matchedOnAnyOf_eq_true c S).mpr hmem)
        · exact ⟨i, Or.inr hi, hP, hm⟩
      · rintro ⟨i, hi, hP, hm⟩
        rcases hi with rfl | hi
        · exact Or.inl hP.symm
        · exact Or.inr ⟨i, hi, hP, hm⟩

theorem pathsWith_append_pathsWithout_perm (infos : List MatchInfo)
    (S : List String) :
    List.Perm (pathsWithSuffixes infos S ++ pathsWithoutSuffixes infos S)
      (infos.map MatchInfo.Path) := by
  induction infos with
  | nil => simp [pathsWithSuffixes, pathsWithoutSuffixes]
  | cons c rest ih =>
    by_cases h : matchedOnAnyOf c S = true
    · rw [pathsWithSuffixes, if_pos h, pathsWithoutSuffixes, if_pos h,
        List.map_cons, List.cons_append]
      exact List.Perm.cons c.Path ih
    · rw [pathsWithSuffixes, if_neg h, pathsWithoutSuffixes, if_neg h,
        List.map_cons]
      exact List.Perm.trans List.perm_middle (List.Perm.cons c.Path ih)

/-- Claim C9: for every change report and suffix list `S`,
`UpdatedFilePathsWithSuffixes S` holds exactly the updated paths whose
recorded matched-suffix is in `S`, `UpdatedFilePathsWithoutSuffixes S`
exactly those whose matched-suffix is not in `S`, and their concatenation
is a permutation of `UpdatedFilePaths` (each updated path occurs in the
two results together exactly as often as it is updated); likewise for the
Deleted variants. -/
theorem C9_suffix_filter_partition (c : defaultChange) (S : List String) :
    (∀ p, p ∈ c.UpdatedFilePathsWithSuffixes S ↔
      ∃ i, i ∈ c.updatedInfos ∧ i.Path = p ∧ i.MatchedOn ∈ S) ∧
    (∀ p, p ∈ c.UpdatedFilePathsWithoutSuffixes S ↔
      ∃ i, i ∈ c.updatedInfos ∧ i.Path = p ∧ i.MatchedOn ∉ S) ∧
    List.Perm (c.UpdatedFilePathsWithSuffixes S ++
      c.UpdatedFilePathsWithoutSuffixes S) c.UpdatedFilePaths ∧
    (∀ p, p ∈ c.DeletedFilePathsWithSuffixes S ↔
      ∃ i, i ∈ c.deletedInfos ∧ i.Path = p ∧ i.MatchedOn ∈ S) ∧
    (∀ p, p ∈ c.DeletedFilePathsWithoutSuffixes S ↔
      ∃ i, i ∈ c.deletedInfos ∧ i.Path = p ∧ i.MatchedOn ∉ S) ∧
    List.Perm (c.DeletedFilePathsWithSuffixes S ++
      c.DeletedFilePathsWithoutSuffixes S) c.DeletedFilePaths :=
  ⟨fun p => mem_pathsWithSuffixes c.updatedInfos S p,
   fun p => mem_pathsWithoutSuffixes c.updatedInfos S p,
   pathsWith_append_pathsWithout_perm c.updatedInfos S,
   fun p => mem_pathsWithSuffixes c.deletedInfos S p,
   fun p => mem_pathsWithoutSuffixes c.deletedInfos S p,
   pathsWith_append_pathsWithout_perm c.deletedInfos S⟩

theorem hasSuffix_empty (s : String) : hasSuffix s "" = true := by
  simp [hasSuffix, List.isSuffixOf]

theorem matchesSuffixes_empty_head (name : String) (rest : List String) :
    matchesSuffixes name ("" :: rest) = some "" := by
  rw [matchesSuffixes, if_pos (hasSuffix_empty name)]

theorem scanEntries_empty_head (config : Config) (rest : List String)
    (hcrit : config.ScanCriteria = "" :: rest) (es : List FileEntry) :
    scanEntries config es =
      (es.filter (fun e => !e.isDir)).map (fun e =>
        (pathJoin config.RootDirPath e.name,
          { Path := pathJoin config.RootDirPath e.name,
            ModTime := e.modTime, MatchedOn := "" })) := by
  induction es with
  | nil => rfl
  | cons sub rest' ih =>
    by_cases hd : sub.isDir = true
    · simp [scanEntries, hd, ih]
    · simp only [scanEntries, hd, hcrit, matchesSuffixes_empty_head,
        Bool.false_eq_true, if_false, List.filter_cons]
      simp [hd, ih]

/-- Claim C10: `Config.IsValid` rejects only an empty criteria list, not
empty-string elements, so a criteria list headed by `""` passes
validation; `matchesSuffixes` matches every name against the empty
suffix; hence a flat scan with such criteria records every non-directory
entry in the snapshot with `""` as its matched-suffix. -/
theorem C10_empty_suffix_accepted (cfg : Config) (rest : List String)
    (es : List FileEntry)
    (hroot : (stringTrimSpace cfg.RootDirPath).length ≠ 0)
    (hch : cfg.hasChangesChan = true) (hsf : cfg.hasScanFunc = true)
    (hcrit : cfg.ScanCriteria = "" :: rest) :
    Config.IsValid cfg = none ∧
    (∀ name, matchesSuffixes name cfg.ScanCriteria = some "") ∧
    ScanFilesInDirectory (.entries es) cfg =
      .ok ⟨(es.filter (fun e => !e.isDir)).map (fun e =>
        (pathJoin cfg.RootDirPath e.name,
          { Path := pathJoin cfg.RootDirPath e.name,
            ModTime := e.modTime, MatchedOn := "" }))⟩ := by
  refine ⟨?_, ?_, ?_⟩
  · rw [Config.IsValid, if_neg hroot, hcrit, hch, hsf]
    simp
  · intro name
    rw [hcrit]
    exact matchesSuffixes_empty_head name rest
  · rw [ScanFilesInDirectory, scanEntries_empty_head cfg rest hcrit es]

/-- Witness for C10: a config with criteria `["", ".txt"]` passes
validation and a flat scan records both plain files (and not the
subdirectory) with matched-suffix `""`. -/
theorem C10_empty_suffix_accepted_witness :
    Config.IsValid { RootDirPath := "/tmp", ScanCriteria := ["", ".txt"],
                     RefreshDelay := 0, hasChangesChan := true,
                     hasScanFunc := true } = none ∧
    ScanFilesInDirectory (.entries
        [{ name := "a.txt", isDir := false, modTime := 5 },
         { name := "sub", isDir := true, modTime := 6 },
         { name := "b.cfg", isDir := false, modTime := 7 }])
      { RootDirPath := "/tmp", ScanCriteria := ["", ".txt"],
        RefreshDelay := 0, hasChangesChan := true, hasScanFunc := true } =
      .ok ⟨[("/tmp/a.txt", { Path := "/tmp/a.txt", ModTime := 5,
                             MatchedOn := "" }),
            ("/tmp/b.cfg", { Path := "/tmp/b.cfg", ModTime := 7,
                             MatchedOn := "" })]⟩ := by
  have h := C10_empty_suffix_accepted
    { RootDirPath := "/tmp", ScanCriteria := ["", ".txt"],
      RefreshDelay := 0, hasChangesChan := true, hasScanFunc := true }
    [".txt"]
    [{ name := "a.txt", isDir := false, modTime := 5 },
     { name := "sub", isDir := true, modTime := 6 },
     { name := "b.cfg", isDir := false, modTime := 7 }]
    (by decide) rfl rfl rfl
  exact ⟨h.1, h.2.2⟩

end Watcher
